import Mathlib

/-!
Verification model of the gitops-squared resource-versioning and
catalog-aggregation subsystem.

The Go sources are shallowly embedded as executable Lean definitions:

* `internal/oci/client.go` — the OCI registry client (`pushResource`,
  `pushTombstone`, `pullResource`, `listResourceRepos`, `pushCatalogOCI`).
  The remote registry is modelled as an association list from repository
  path to the repository's tag table (tag name to the tagged artifact).
  An artifact records its single layer's bytes together with the layer
  and manifest annotation maps attached at push time; content digests are
  represented by the artifact value itself (content addressing).
* `internal/api/catalog.go` — the catalog manager (`catalogSet`,
  `catalogGet`, `catalogDelete`, `restore`, `buildCatalogTarGz`,
  `buildKustomization`).  The tar.gz archive is modelled structurally as
  the ordered list of (file name, file contents) entries it contains;
  gzip/tar framing is a bijective encoding and is not modelled.  Go map
  iteration order is made explicit as the order of an association list.
* the HTTP handler file (`Handler.CreateResource`, `Handler.DeleteResource`)
  and `internal/model/resource.go` (`validate`, `toKubernetesYAML`).
  Wall-clock reads (`time.Now`) are passed in explicitly as a `now : Nat`
  parameter (Unix seconds); the RFC3339 rendering of a timestamp is
  abstracted as its decimal rendering, which is all the claims depend on.

Byte strings (`[]byte`) are modelled as `String`.
-/

/-- Go map lookup on an association list: the first binding wins. -/
def getKV {α : Type} : List (String × α) → String → Option α
  | [], _ => none
  | (k', v) :: rest, k => if k' = k then some v else getKV rest k

/-- Go map insertion on an association list: replace the first binding
for the key, or append a new binding. -/
def setKV {α : Type} : List (String × α) → String → α → List (String × α)
  | [], k, v => [(k, v)]
  | (k', v') :: rest, k, v =>
      if k' = k then (k, v) :: rest else (k', v') :: setKV rest k v

/-- Go map deletion on an association list: drop every binding for the key. -/
def eraseKV {α : Type} (l : List (String × α)) (k : String) : List (String × α) :=
  l.filter (fun kv => kv.1 ≠ k)

/-- Models `strings.HasPrefix` on character lists. -/
def listHasPfx : List Char → List Char → Bool
  | [], _ => true
  | _ :: _, [] => false
  | c :: p, c' :: s => c = c' && listHasPfx p s

/-- Models `strings.HasPrefix`. -/
def strHasPfx (p s : String) : Bool := listHasPfx p.data s.data

/-- Models `strings.TrimPrefix` after the prefix has been checked: drop the
first `n` characters. -/
def strDropLen (n : Nat) (s : String) : String := String.mk (s.data.drop n)

/-- Split a character list at the first occurrence of `'/'`, returning
the parts before and after it, or `none` when no slash occurs. -/
def splitFirstSlash : List Char → Option (List Char × List Char)
  | [] => none
  | c :: cs =>
      if c = '/' then some ([], cs)
      else
        match splitFirstSlash cs with
        | none => none
        | some (a, b) => some (c :: a, b)

/-- Models `strings.SplitN(s, "/", 2)`: one part when `s` has no slash, otherwise
the part before the first slash and everything after it. -/
def splitN2 (s : String) : List String :=
  match splitFirstSlash s.data with
  | none => [s]
  | some (a, b) => [String.mk a, String.mk b]

/-- Models `strings.ReplaceAll(s, "/", "-")`. -/
def replaceSlashDash (s : String) : String :=
  String.mk (s.data.map fun c => if c = '/' then '-' else c)

/-- An OCI artifact as pushed by this system: one layer plus the layer and
manifest annotation maps.  Content addressing is modelled by identifying a
digest with the artifact value itself. -/
structure Artifact where
  layerBytes : String
  layerAnn : List (String × String)
  manifestAnn : List (String × String)
  deriving DecidableEq

/-- A repository's tag table: tag name to tagged artifact. -/
abbrev RepoState := List (String × Artifact)

/-- The remote registry: repository path to repository state. -/
abbrev Registry := List (String × RepoState)

/-- Models `ResourceInfo` from `internal/oci/client.go`. -/
structure ResourceInfo where
  Repository : String
  Namespace : String
  Name : String
  deriving DecidableEq

/-- The repository path root configured in `main`:
`oci.NewClient(registryHost, "gitops-squared/resources")`. -/
def resourcePfx : String := "gitops-squared/resources"

/-- Models `Client.resourceRepoPath`. -/
def resourceRepoPath (ns name : String) : String :=
  resourcePfx ++ "/" ++ ns ++ "/" ++ name

/-- The hard-coded catalog repository path from `Client.PushCatalog`. -/
def catalogRepoPath : String := "gitops-squared/catalog"

/-- Models `fmt.Sprintf("v%d", time.Now().Unix())`. -/
def versionTag (now : Nat) : String := "v" ++ toString now

/-- The RFC3339 rendering of the wall clock, abstracted as the decimal
rendering of the Unix second. -/
def rfc3339 (now : Nat) : String := toString now

/-- Models `ocispec.AnnotationTitle`. -/
def annTitle : String := "org.opencontainers.image.title"

/-- Models `ocispec.AnnotationCreated`. -/
def annCreated : String := "org.opencontainers.image.created"

/-- Models `oci.AnnotationResourceName` from `internal/oci/mediatype.go`. -/
def annResourceName : String := "io.gitops-squared.resource.name"

/-- Models `oci.AnnotationResourceNamespace`. -/
def annResourceNamespace : String := "io.gitops-squared.resource.namespace"

/-- Models `oci.AnnotationResourceVersion`. -/
def annResourceVersion : String := "io.gitops-squared.resource.version"

/-- Models `oci.AnnotationResourceDeleted`. -/
def annResourceDeleted : String := "io.gitops-squared.resource.deleted"

/-- Models `Client.PushResource`: pack the manifest bytes as a one-layer artifact
carrying the name/namespace/version annotations, write it to the registry
under the freshly generated version tag, then retag `latest` to it.
Returns the updated registry, the pushed artifact (standing for its
digest), and the version tag. -/
def pushResource (reg : Registry) (ns name manifest : String) (now : Nat) :
    Registry × Artifact × String :=
  let version := versionTag now
  let art : Artifact :=
    { layerBytes := manifest
      layerAnn := [(annTitle, "platformresource.yaml"),
                   (annResourceName, name),
                   (annResourceNamespace, ns),
                   (annResourceVersion, version)]
      manifestAnn := [(annCreated, rfc3339 now),
                      (annResourceName, name),
                      (annResourceNamespace, ns)] }
  let rp := resourceRepoPath ns name
  let tags := (getKV reg rp).getD []
  (setKV reg rp (setKV (setKV tags version art) "latest" art), art, version)

/-- Models `Client.PushTombstone`: push the deletion-marker artifact with the
`deleted=true` annotations under a fresh version tag, then retag `latest`. -/
def pushTombstone (reg : Registry) (ns name : String) (now : Nat) :
    Registry × Artifact × String :=
  let version := versionTag now
  let art : Artifact :=
    { layerBytes := "# deleted: " ++ ns ++ "/" ++ name ++ "\n"
      layerAnn := [(annResourceName, name),
                   (annResourceNamespace, ns),
                   (annResourceDeleted, "true"),
                   (annResourceVersion, version)]
      manifestAnn := [(annCreated, rfc3339 now),
                      (annResourceDeleted, "true")] }
  let rp := resourceRepoPath ns name
  let tags := (getKV reg rp).getD []
  (setKV reg rp (setKV (setKV tags version art) "latest" art), art, version)

/-- Models `Client.PullResource`: resolve the reference in the repository's tag
table and return the layer bytes together with the manifest and layer
annotations merged, layer entries overriding manifest entries.  `none`
models a failed pull (missing repository or reference). -/
def pullResource (reg : Registry) (ns name ref : String) :
    Option (String × List (String × String)) :=
  match getKV reg (resourceRepoPath ns name) with
  | none => none
  | some tags =>
      match getKV tags ref with
      | none => none
      | some art => some (art.layerBytes, art.layerAnn ++ art.manifestAnn)

/-- One repository name examined by `Client.ListResourceRepos`: keep it if
it starts with the resource path root and its suffix splits into exactly
two segments at the first slash. -/
def parseRepoName (r : String) : Option ResourceInfo :=
  if strHasPfx (resourcePfx ++ "/") r then
    match splitN2 (strDropLen (resourcePfx ++ "/").length r) with
    | [ns, nm] => some ⟨r, ns, nm⟩
    | _ => none
  else none

/-- Models `Client.ListResourceRepos` over the registry's repository list. -/
def listResourceRepos (reg : Registry) : List ResourceInfo :=
  (reg.map Prod.fst).filterMap parseRepoName

/-- Models `Client.PushCatalog`: push the archive bytes as the single layer of the
catalog artifact and retag `latest` in the catalog repository. -/
def pushCatalogOCI (reg : Registry) (tarGz : String) (now : Nat) : Registry :=
  let art : Artifact :=
    { layerBytes := tarGz
      layerAnn := []
      manifestAnn := [(annCreated, rfc3339 now)] }
  let tags := (getKV reg catalogRepoPath).getD []
  setKV reg catalogRepoPath (setKV tags "latest" art)

/-- The file name an index entry receives inside the catalog archive:
`strings.ReplaceAll(key, "/", "-") + ".yaml"`. -/
def entryFileName (key : String) : String := replaceSlashDash key ++ ".yaml"

/-- The `resources:` lines of the generated kustomization: one
`"  - <file>\n"` line per file name, in order. -/
def kustomizationEntries : List String → String
  | [] => ""
  | f :: fs => "  - " ++ f ++ "\n" ++ kustomizationEntries fs

/-- Models `buildKustomization` from `internal/api/catalog.go`. -/
def buildKustomization (filenames : List String) : String :=
  "apiVersion: kustomize.config.k8s.io/v1beta1\nkind: Kustomization\nresources:\n"
    ++ kustomizationEntries filenames
    ++ (if filenames.isEmpty then "  []\n" else "")

/-- Models `buildCatalogTarGz`: the archive as its ordered entry list — one
`manifests/<key-with-slashes-dashed>.yaml` file per index entry, in
iteration order, followed by the generated `manifests/kustomization.yaml`
listing exactly those file names in the same order. -/
def buildCatalogTarGz (resources : List (String × String)) : List (String × String) :=
  (resources.map fun kv => ("manifests/" ++ entryFileName kv.1, kv.2))
    ++ [("manifests/kustomization.yaml",
         buildKustomization (resources.map fun kv => entryFileName kv.1))]

/-- Serialization of the structural archive into the byte blob stored in
the registry (stands for the actual tar.gz byte stream). -/
def encodeArchive (entries : List (String × String)) : String :=
  String.join (entries.map fun kv => kv.1 ++ "\x00" ++ kv.2 ++ "\x00")

/-- The in-process state: the registry plus the catalog manager's
in-memory index ("namespace/name" to manifest bytes). -/
structure SysState where
  reg : Registry
  catalog : List (String × String)
  deriving DecidableEq

/-- Models `CatalogManager.Set`. -/
def catalogSet (cat : List (String × String)) (ns name manifest : String) :
    List (String × String) :=
  setKV cat (ns ++ "/" ++ name) manifest

/-- Models `CatalogManager.Get`. -/
def catalogGet (cat : List (String × String)) (ns name : String) : Option String :=
  getKV cat (ns ++ "/" ++ name)

/-- Models `CatalogManager.Delete`. -/
def catalogDelete (cat : List (String × String)) (ns name : String) :
    List (String × String) :=
  eraseKV cat (ns ++ "/" ++ name)

/-- Models `ResourceSpec` from `internal/model/resource.go` (`Typ` renders the Go
field `Type`, which is a reserved word in Lean). -/
structure ResourceSpec where
  Typ : String
  Size : String
  Region : String
  Replicas : Int
  deriving DecidableEq

/-- Models `ResourceRequest`. -/
structure ResourceRequest where
  Name : String
  Spec : ResourceSpec
  deriving DecidableEq

/-- Models `model.validTypes`. -/
def validTypes : List String := ["vm", "database", "bucket"]

/-- Models `model.validSizes`. -/
def validSizes : List String := ["small", "medium", "large"]

/-- Models `ResourceRequest.Validate`, as a Boolean. -/
def validate (r : ResourceRequest) : Bool :=
  r.Name ≠ "" && validTypes.contains r.Spec.Typ
    && validSizes.contains r.Spec.Size && r.Spec.Replicas ≤ 10

/-- Models `ResourceRequest.ToKubernetesYAML`: the YAML serialization of the
`PlatformResource` CRD built from the request (keys emitted in the sorted
order `sigs.k8s.io/yaml` produces; zero replicas defaulted to one, as in
the source). -/
def toKubernetesYAML (r : ResourceRequest) (ns version pushedAt : String) : String :=
  let replicas : Int := if r.Spec.Replicas = 0 then 1 else r.Spec.Replicas
  "apiVersion: gitops-squared.io/v1alpha1\n"
    ++ "kind: PlatformResource\n"
    ++ "metadata:\n"
    ++ "  annotations:\n"
    ++ "    gitops-squared.io/pushed-at: " ++ pushedAt ++ "\n"
    ++ "    gitops-squared.io/version: " ++ version ++ "\n"
    ++ "  labels:\n"
    ++ "    app.kubernetes.io/managed-by: gitops-squared\n"
    ++ "  name: " ++ r.Name ++ "\n"
    ++ "  namespace: " ++ ns ++ "\n"
    ++ "spec:\n"
    ++ (if r.Spec.Region = "" then "" else "  region: " ++ r.Spec.Region ++ "\n")
    ++ "  replicas: " ++ toString replicas ++ "\n"
    ++ "  size: " ++ r.Spec.Size ++ "\n"
    ++ "  type: " ++ r.Spec.Typ ++ "\n"

/-- Models `api.defaultNamespace`. -/
def defaultNamespace : String := "default"

/-- Outcome of `Handler.CreateResource` as seen by the client. -/
inductive CreateOutcome where
  | badRequest
  | created (version : String) (art : Artifact)
  deriving DecidableEq

/-- Outcome of `Handler.DeleteResource` as seen by the client. -/
inductive DeleteOutcome where
  | badRequest
  | notFound
  | deleted (version : String) (art : Artifact)
  deriving DecidableEq

/-- Models `Handler.CreateResource`: validate, render the CRD YAML with the
placeholder version `"pending"`, push those bytes to the registry,
re-render the YAML with the real version, store that in the index, and
republish the catalog. -/
def createResource (s : SysState) (req : ResourceRequest) (now : Nat) :
    SysState × CreateOutcome :=
  if validate req then
    let yamlPending := toKubernetesYAML req defaultNamespace "pending" (rfc3339 now)
    let pr := pushResource s.reg defaultNamespace req.Name yamlPending now
    let yamlReal := toKubernetesYAML req defaultNamespace pr.2.2 (rfc3339 now)
    let cat := catalogSet s.catalog defaultNamespace req.Name yamlReal
    let reg := pushCatalogOCI pr.1 (encodeArchive (buildCatalogTarGz cat)) now
    (⟨reg, cat⟩, .created pr.2.2 pr.2.1)
  else (s, .badRequest)

/-- Models `Handler.DeleteResource`: reject an empty name, report NotFound when
the index has no entry, otherwise push a tombstone, remove the index
entry and republish the catalog. -/
def deleteResource (s : SysState) (name : String) (now : Nat) :
    SysState × DeleteOutcome :=
  if name = "" then (s, .badRequest)
  else
    match catalogGet s.catalog defaultNamespace name with
    | none => (s, .notFound)
    | some _ =>
        let pr := pushTombstone s.reg defaultNamespace name now
        let cat := catalogDelete s.catalog defaultNamespace name
        let reg := pushCatalogOCI pr.1 (encodeArchive (buildCatalogTarGz cat)) now
        (⟨reg, cat⟩, .deleted pr.2.2 pr.2.1)

/-- The body of the restoration loop in `CatalogManager.Restore`: pull the
repository's `latest` version; on failure skip, on a `deleted=true`
annotation skip, otherwise write the entry into the index. -/
def restoreStep (reg : Registry) (cat : List (String × String)) (i : ResourceInfo) :
    List (String × String) :=
  match pullResource reg i.Namespace i.Name "latest" with
  | none => cat
  | some (manifest, ann) =>
      if getKV ann annResourceDeleted = some "true" then cat
      else catalogSet cat i.Namespace i.Name manifest

/-- Models `CatalogManager.Restore`: list the resource repositories, run the
restoration loop over the existing index, then unconditionally rebuild
and republish the catalog. -/
def restore (s : SysState) (now : Nat) : SysState :=
  let repos := listResourceRepos s.reg
  let cat := repos.foldl (restoreStep s.reg) s.catalog
  ⟨pushCatalogOCI s.reg (encodeArchive (buildCatalogTarGz cat)) now, cat⟩

/-- The index key a listed repository writes to: `namespace + "/" + name`. -/
def repoKey (i : ResourceInfo) : String := i.Namespace ++ "/" ++ i.Name

/-- The value the restoration loop would store for one listed repository:
`some` manifest for a successful non-tombstone pull, `none` otherwise. -/
def stepVal (reg : Registry) (i : ResourceInfo) : Option String :=
  match pullResource reg i.Namespace i.Name "latest" with
  | none => none
  | some (manifest, ann) =>
      if getKV ann annResourceDeleted = some "true" then none else some manifest

/-- What the registry's `latest` tags say about one index key: the
manifest the restoration loop restores for that key, or `none` when no
listed repository restores it. -/
def restoreResult (reg : Registry) (k : String) : Option String :=
  match (listResourceRepos reg).find? (fun i => repoKey i == k) with
  | none => none
  | some i => stepVal reg i

/-- The artifact the catalog repository's `latest` tag resolves to. -/
def catalogLatest (reg : Registry) : Option Artifact :=
  match getKV reg catalogRepoPath with
  | none => none
  | some tags => getKV tags "latest"

/-- The catalog artifact built and pushed for a given index snapshot. -/
def catalogArtifact (cat : List (String × String)) (now : Nat) : Artifact :=
  { layerBytes := encodeArchive (buildCatalogTarGz cat)
    layerAnn := []
    manifestAnn := [(annCreated, rfc3339 now)] }

/-- Split a character list on a separator character (`strings.Split`). -/
def splitCharList (sep : Char) : List Char → List (List Char)
  | [] => [[]]
  | c :: cs =>
      let r := splitCharList sep cs
      if c = sep then [] :: r
      else
        match r with
        | [] => [[c]]
        | h :: t => (c :: h) :: t

/-- Recognize one line of a kustomization body as a resource entry: a line
of the form `"  - <file>"` yields the file name, any other line nothing. -/
def parseEntryLine (l : List Char) : Option String :=
  if listHasPfx "  - ".data l then some (String.mk (l.drop 4)) else none

/-- The file names a kustomization body lists, line by line. -/
def listedNames (s : String) : List String :=
  (splitCharList '\n' s.data).filterMap parseEntryLine

/-- Concrete registry used to exercise the restore error-handling paths:
one malformed repository path (no slash after the resource path root), one
listed repository whose `latest` pull fails, and one healthy repository. -/
def regC7 : Registry :=
  [("gitops-squared/resources/weird", []),
   ("gitops-squared/resources/default/broken", []),
   ("gitops-squared/resources/default/good",
    [("latest", { layerBytes := "m", layerAnn := [], manifestAnn := [] })])]

/-- The resource request used in the concrete publish/restore trace. -/
def reqDb : ResourceRequest := ⟨"db", ⟨"vm", "small", "", 1⟩⟩

/-- Executable lexicographic order on character lists, used to state
whether a file-name sequence is sorted. -/
def lexLe : List Char → List Char → Bool
  | [], _ => true
  | _ :: _, [] => false
  | a :: as, b :: bs => if a = b then lexLe as bs else decide (a < b)

/-! ### Association-list laws -/

theorem getKV_setKV_self {α : Type} (l : List (String × α)) (k : String) (v : α) :
    getKV (setKV l k v) k = some v := by
  induction l with
  | nil => simp [setKV, getKV]
  | cons kv rest ih =>
      by_cases h : kv.1 = k
      · simp [setKV, getKV, h]
      · simp [setKV, getKV, h, ih]

theorem getKV_setKV_ne {α : Type} (l : List (String × α)) (k' k : String) (v : α)
    (h : k' ≠ k) : getKV (setKV l k' v) k = getKV l k := by
  induction l with
  | nil => simp [setKV, getKV, h]
  | cons kv rest ih =>
      by_cases h1 : kv.1 = k'
      · simp [setKV, getKV, h1, h]
      · simp only [setKV, if_neg h1, getKV]
        by_cases h2 : kv.1 = k
        · simp [h2]
        · simp [h2, ih]

theorem getKV_eraseKV_self {α : Type} (l : List (String × α)) (k : String) :
    getKV (eraseKV l k) k = none := by
  induction l with
  | nil => simp [eraseKV, getKV]
  | cons kv rest ih =>
      by_cases h : kv.1 = k
      · simpa [eraseKV, h] using ih
      · simpa [eraseKV, getKV, h] using ih

theorem getKV_cons_self {α : Type} (l : List (String × α)) (k : String) (v : α) :
    getKV ((k, v) :: l) k = some v := by
  simp [getKV]

theorem getKV_cons_ne {α : Type} (l : List (String × α)) (k' k : String) (v : α)
    (h : k' ≠ k) : getKV ((k', v) :: l) k = getKV l k := by
  simp [getKV, h]

/-! ### String and split lemmas -/

theorem str_data_append (a b : String) : (a ++ b).data = a.data ++ b.data := by
  cases a; cases b; rfl

theorem str_eq_of_data {a b : String} (h : a.data = b.data) : a = b := by
  cases a; cases b; exact congrArg String.mk h

theorem listHasPfx_append (p x : List Char) : listHasPfx p (p ++ x) = true := by
  induction p with
  | nil => rfl
  | cons c p ih => simp [listHasPfx, ih]

theorem splitFirstSlash_eq_some {s a b : List Char}
    (h : splitFirstSlash s = some (a, b)) : s = a ++ '/' :: b ∧ '/' ∉ a := by
  induction s generalizing a b with
  | nil => simp [splitFirstSlash] at h
  | cons c cs ih =>
      by_cases hc : c = '/'
      · subst hc
        simp only [splitFirstSlash, if_pos rfl, Option.some.injEq, Prod.mk.injEq] at h
        obtain ⟨rfl, rfl⟩ := h
        simp
      · simp only [splitFirstSlash, if_neg hc] at h
        cases hs : splitFirstSlash cs with
        | none => rw [hs] at h; simp at h
        | some ab =>
            obtain ⟨a', b'⟩ := ab
            rw [hs] at h
            simp only [Option.some.injEq, Prod.mk.injEq] at h
            obtain ⟨rfl, rfl⟩ := h
            obtain ⟨h1, h2⟩ := ih hs
            refine ⟨by simp [h1], ?_⟩
            simp only [List.mem_cons, not_or]
            exact ⟨fun hcc => hc hcc.symm, h2⟩

theorem splitFirstSlash_append {a : List Char} (b : List Char) (h : '/' ∉ a) :
    splitFirstSlash (a ++ '/' :: b) = some (a, b) := by
  induction a with
  | nil => simp [splitFirstSlash]
  | cons c a ih =>
      have hc : ¬ c = '/' := fun hc => h (hc ▸ List.mem_cons_self c a)
      have ha : '/' ∉ a := fun ha => h (List.mem_cons_of_mem c ha)
      simp [splitFirstSlash, hc, ih ha]

theorem splitFirstSlash_eq_none {s : List Char} (h : '/' ∉ s) :
    splitFirstSlash s = none := by
  induction s with
  | nil => rfl
  | cons c cs ih =>
      have hc : ¬ c = '/' := fun hc => h (hc ▸ List.mem_cons_self c cs)
      have hcs : '/' ∉ cs := fun hcs => h (List.mem_cons_of_mem c hcs)
      simp [splitFirstSlash, hc, ih hcs]

theorem slashKey_inj {a b c d : List Char} (ha : '/' ∉ a) (hc : '/' ∉ c)
    (h : a ++ '/' :: b = c ++ '/' :: d) : a = c ∧ b = d := by
  have h1 : splitFirstSlash (a ++ '/' :: b) = some (a, b) := splitFirstSlash_append b ha
  have h2 : splitFirstSlash (c ++ '/' :: d) = some (c, d) := splitFirstSlash_append d hc
  rw [h, h2] at h1
  simpa [Prod.ext_iff] using h1.symm

/-! ### Repository-listing lemmas -/

theorem repoKey_data (i : ResourceInfo) :
    (repoKey i).data = i.Namespace.data ++ '/' :: i.Name.data := by
  have h : ("/" : String).data = ['/'] := rfl
  show ((i.Namespace ++ "/") ++ i.Name).data = _
  rw [str_data_append, str_data_append, h, List.append_assoc]
  rfl

theorem parseRepoName_some {r : String} {i : ResourceInfo}
    (h : parseRepoName r = some i) :
    i.Repository = r ∧ '/' ∉ i.Namespace.data := by
  unfold parseRepoName at h
  by_cases hp : strHasPfx (resourcePfx ++ "/") r
  · rw [if_pos hp] at h
    unfold splitN2 at h
    cases hs : splitFirstSlash (strDropLen (resourcePfx ++ "/").length r).data with
    | none => rw [hs] at h; simp at h
    | some ab =>
        obtain ⟨a, b⟩ := ab
        rw [hs] at h
        simp only [Option.some.injEq] at h
        subst h
        exact ⟨rfl, (splitFirstSlash_eq_some hs).2⟩
  · rw [if_neg hp] at h; simp at h

theorem mem_listResourceRepos {reg : Registry} {i : ResourceInfo}
    (h : i ∈ listResourceRepos reg) :
    i.Repository ∈ reg.map Prod.fst ∧ parseRepoName i.Repository = some i := by
  unfold listResourceRepos at h
  rw [List.mem_filterMap] at h
  obtain ⟨r, hr, hp⟩ := h
  have he := (parseRepoName_some hp).1
  rw [← he] at hr hp
  exact ⟨hr, hp⟩

theorem stepVal_congr {reg : Registry} {i j : ResourceInfo}
    (hns : i.Namespace = j.Namespace) (hnm : i.Name = j.Name) :
    stepVal reg i = stepVal reg j := by
  unfold stepVal
  rw [hns, hnm]

theorem repoKey_det {reg : Registry} {i : ResourceInfo}
    (hi : i ∈ listResourceRepos reg) {ns nm : String} (hns : '/' ∉ ns.data)
    (hk : repoKey i = ns ++ "/" ++ nm) : i.Namespace = ns ∧ i.Name = nm := by
  have h1 : '/' ∉ i.Namespace.data :=
    (parseRepoName_some (mem_listResourceRepos hi).2).2
  have h2 := repoKey_data i
  have h3 : (ns ++ "/" ++ nm).data = ns.data ++ '/' :: nm.data :=
    repoKey_data ⟨"", ns, nm⟩
  rw [hk, h3] at h2
  obtain ⟨ha, hb⟩ := slashKey_inj hns h1 h2
  exact ⟨str_eq_of_data ha.symm, str_eq_of_data hb.symm⟩

theorem stepVal_eq_of_repoKey_eq {reg : Registry} {i j : ResourceInfo}
    (hi : i ∈ listResourceRepos reg) (hj : j ∈ listResourceRepos reg)
    (hk : repoKey i = repoKey j) : stepVal reg i = stepVal reg j := by
  have hj' : '/' ∉ j.Namespace.data :=
    (parseRepoName_some (mem_listResourceRepos hj).2).2
  have h := repoKey_det hi hj' (by rw [hk]; rfl)
  exact stepVal_congr h.1 h.2

/-! ### Characterization of the restoration loop -/

theorem restoreStep_eq (reg : Registry) (cat : List (String × String)) (i : ResourceInfo) :
    restoreStep reg cat i =
      match stepVal reg i with
      | none => cat
      | some m => setKV cat (repoKey i) m := by
  unfold restoreStep stepVal catalogSet repoKey
  cases pullResource reg i.Namespace i.Name "latest" with
  | none => rfl
  | some p =>
      obtain ⟨m, ann⟩ := p
      by_cases hd : getKV ann annResourceDeleted = some "true"
      · simp [hd]
      · simp [hd]

theorem foldl_restoreStep_getKV (reg : Registry) (k : String) (v : Option String) :
    ∀ infos : List ResourceInfo,
      (∀ i ∈ infos, repoKey i = k → stepVal reg i = v) →
      ∀ cat, getKV (infos.foldl (restoreStep reg) cat) k =
        if infos.any (fun i => repoKey i == k) then
          (match v with | some m => some m | none => getKV cat k)
        else getKV cat k := by
  intro infos
  induction infos with
  | nil => intro _ cat; simp
  | cons i rest ih =>
      intro hv cat
      have hrest : ∀ j ∈ rest, repoKey j = k → stepVal reg j = v :=
        fun j hj => hv j (List.mem_cons_of_mem i hj)
      rw [List.foldl_cons, ih hrest]
      by_cases hik : repoKey i = k
      · have hsv : stepVal reg i = v := hv i (List.mem_cons_self i rest) hik
        have hany : (i :: rest).any (fun j => repoKey j == k) = true := by
          simp [List.any_cons, hik]
        rw [hany, if_pos rfl]
        cases hvv : v with
        | some m =>
            by_cases hra : rest.any (fun j => repoKey j == k) = true
            · rw [if_pos hra]
            · rw [if_neg hra, restoreStep_eq, hsv, hvv, hik]
              exact getKV_setKV_self cat k m
        | none =>
            have hcat : restoreStep reg cat i = cat := by
              rw [restoreStep_eq, hsv, hvv]
            rw [hcat]
            by_cases hra : rest.any (fun j => repoKey j == k) = true
            · rw [if_pos hra]
            · rw [if_neg hra]
      · have hcat : getKV (restoreStep reg cat i) k = getKV cat k := by
          rw [restoreStep_eq]
          cases stepVal reg i with
          | none => rfl
          | some m => exact getKV_setKV_ne cat (repoKey i) k m hik
        have hany : (i :: rest).any (fun j => repoKey j == k)
            = rest.any (fun j => repoKey j == k) := by
          simp [List.any_cons, hik]
        rw [hany]
        by_cases hra : rest.any (fun j => repoKey j == k) = true
        · rw [if_pos hra, if_pos hra]
          cases v with
          | some m => rfl
          | none => exact hcat
        · rw [if_neg hra, if_neg hra]
          exact hcat

theorem restore_getKV (s : SysState) (now : Nat) (k : String) :
    getKV (restore s now).catalog k =
      match restoreResult s.reg k with
      | some m => some m
      | none => getKV s.catalog k := by
  show getKV ((listResourceRepos s.reg).foldl (restoreStep s.reg) s.catalog) k = _
  unfold restoreResult
  cases hf : (listResourceRepos s.reg).find? (fun i => repoKey i == k) with
  | none =>
      have hnone := List.find?_eq_none.mp hf
      have hv : ∀ i ∈ listResourceRepos s.reg, repoKey i = k → stepVal s.reg i = none :=
        fun i hi hik => absurd (beq_iff_eq.mpr hik) (hnone i hi)
      have hany : ¬ (listResourceRepos s.reg).any (fun i => repoKey i == k) = true := by
        intro hc
        obtain ⟨j, hj, hjk⟩ := List.any_eq_true.mp hc
        exact hnone j hj hjk
      rw [foldl_restoreStep_getKV s.reg k none _ hv s.catalog, if_neg hany]
  | some i0 =>
      have hmem := List.mem_of_find?_eq_some hf
      have hpk := List.find?_some hf
      have hkey : repoKey i0 = k := by simpa using hpk
      have hv : ∀ i ∈ listResourceRepos s.reg, repoKey i = k →
          stepVal s.reg i = stepVal s.reg i0 :=
        fun i hi hik => stepVal_eq_of_repoKey_eq hi hmem (by rw [hik, hkey])
      have hany : (listResourceRepos s.reg).any (fun i => repoKey i == k) = true :=
        List.any_eq_true.mpr ⟨i0, hmem, beq_iff_eq.mpr hkey⟩
      rw [foldl_restoreStep_getKV s.reg k (stepVal s.reg i0) _ hv s.catalog, if_pos hany]

/-! ### Catalog pushes do not disturb the resource repositories -/

theorem parseRepoName_catalog : parseRepoName catalogRepoPath = none := by decide

theorem listResourceRepos_setKV {p : String} (reg : Registry) (st : RepoState)
    (h : parseRepoName p = none) :
    listResourceRepos (setKV reg p st) = listResourceRepos reg := by
  unfold listResourceRepos
  induction reg with
  | nil => simp [setKV, List.filterMap_cons, h]
  | cons kv rest ih =>
      by_cases hk : kv.1 = p
      · simp [setKV, hk, List.filterMap_cons, h]
      · simp only [setKV, if_neg hk, List.map_cons, List.filterMap_cons, ih]

theorem strHasPfx_resourceRepoPath (ns nm : String) :
    strHasPfx (resourcePfx ++ "/") (resourceRepoPath ns nm) = true := by
  have h : (resourceRepoPath ns nm).data
      = (resourcePfx ++ "/").data ++ (ns.data ++ ("/".data ++ nm.data)) := by
    unfold resourceRepoPath
    rw [str_data_append, str_data_append, str_data_append,
        List.append_assoc, List.append_assoc]
  unfold strHasPfx
  rw [h]
  exact listHasPfx_append _ _

theorem resourceRepoPath_ne_catalog (ns nm : String) :
    resourceRepoPath ns nm ≠ catalogRepoPath := by
  intro h
  have h1 := strHasPfx_resourceRepoPath ns nm
  rw [h] at h1
  exact absurd h1 (by decide)

theorem pullResource_pushCatalogOCI (reg : Registry) (t : String) (now : Nat)
    (ns nm ref : String) :
    pullResource (pushCatalogOCI reg t now) ns nm ref = pullResource reg ns nm ref := by
  unfold pullResource pushCatalogOCI
  rw [getKV_setKV_ne _ _ _ _ (Ne.symm (resourceRepoPath_ne_catalog ns nm))]

theorem stepVal_pushCatalogOCI (reg : Registry) (t : String) (now : Nat)
    (i : ResourceInfo) : stepVal (pushCatalogOCI reg t now) i = stepVal reg i := by
  unfold stepVal
  rw [pullResource_pushCatalogOCI]

theorem listResourceRepos_pushCatalogOCI (reg : Registry) (t : String) (now : Nat) :
    listResourceRepos (pushCatalogOCI reg t now) = listResourceRepos reg := by
  unfold pushCatalogOCI
  exact listResourceRepos_setKV reg _ parseRepoName_catalog

theorem restoreResult_pushCatalogOCI (reg : Registry) (t : String) (now : Nat)
    (k : String) : restoreResult (pushCatalogOCI reg t now) k = restoreResult reg k := by
  unfold restoreResult
  rw [listResourceRepos_pushCatalogOCI]
  cases (listResourceRepos reg).find? (fun i => repoKey i == k) with
  | none => rfl
  | some i => exact stepVal_pushCatalogOCI reg t now i

theorem restore_reg (s : SysState) (now : Nat) :
    (restore s now).reg
      = pushCatalogOCI s.reg
          (encodeArchive (buildCatalogTarGz (restore s now).catalog)) now := rfl

theorem restoreResult_restore_reg (s : SysState) (now : Nat) (k : String) :
    restoreResult (restore s now).reg k = restoreResult s.reg k := by
  rw [restore_reg]
  exact restoreResult_pushCatalogOCI _ _ _ _

/-! ### Tombstones are skipped by the restoration loop -/

theorem pullResource_pushTombstone_latest (reg : Registry) (ns name : String)
    (now : Nat) :
    pullResource (pushTombstone reg ns name now).1 ns name "latest"
      = some ((pushTombstone reg ns name now).2.1.layerBytes,
          (pushTombstone reg ns name now).2.1.layerAnn
            ++ (pushTombstone reg ns name now).2.1.manifestAnn) := by
  simp only [pullResource, pushTombstone, getKV_setKV_self]

theorem tombstone_ann_deleted (reg : Registry) (ns name : String) (now : Nat) :
    getKV ((pushTombstone reg ns name now).2.1.layerAnn
        ++ (pushTombstone reg ns name now).2.1.manifestAnn)
      annResourceDeleted = some "true" := by
  show getKV ([(annResourceName, name), (annResourceNamespace, ns),
      (annResourceDeleted, "true"), (annResourceVersion, versionTag now)]
      ++ [(annCreated, rfc3339 now), (annResourceDeleted, "true")])
    annResourceDeleted = some "true"
  rw [List.cons_append, List.cons_append, List.cons_append,
      getKV_cons_ne _ _ _ _ (by decide), getKV_cons_ne _ _ _ _ (by decide),
      getKV_cons_self]

theorem restoreResult_after_tombstone (reg : Registry) (ns name : String) (now : Nat)
    (hns : '/' ∉ ns.data) :
    restoreResult (pushTombstone reg ns name now).1 (ns ++ "/" ++ name) = none := by
  unfold restoreResult
  cases hf : (listResourceRepos (pushTombstone reg ns name now).1).find?
      (fun i => repoKey i == ns ++ "/" ++ name) with
  | none => rfl
  | some i =>
      have hmem := List.mem_of_find?_eq_some hf
      have hpk := List.find?_some hf
      have hkey : repoKey i = ns ++ "/" ++ name := by simpa using hpk
      obtain ⟨h1, h2⟩ := repoKey_det hmem hns hkey
      simp [stepVal, h1, h2, pullResource_pushTombstone_latest, tombstone_ann_deleted]

/-! ### Parsing the generated kustomization back -/

theorem str_mk_data (s : String) : String.mk s.data = s := by
  cases s; rfl

theorem splitCharList_append_cons (sep : Char) (l rest : List Char) (h : sep ∉ l) :
    splitCharList sep (l ++ sep :: rest) = l :: splitCharList sep rest := by
  induction l with
  | nil => simp [splitCharList]
  | cons c cs ih =>
      have hc : ¬ c = sep := fun hc => h (hc ▸ List.mem_cons_self c cs)
      have hcs : sep ∉ cs := fun hx => h (List.mem_cons_of_mem c hx)
      simp only [List.cons_append, splitCharList, if_neg hc, List.append_eq, ih hcs]

theorem parseEntryLine_of_entry (f : String) :
    parseEntryLine ("  - ".data ++ f.data) = some f := by
  unfold parseEntryLine
  rw [if_pos (listHasPfx_append _ _)]
  have hdrop : ("  - ".data ++ f.data).drop 4 = f.data := by
    have h4 : ("  - " : String).data.length = 4 := by decide
    rw [← h4, List.drop_left]
  rw [hdrop, str_mk_data]

theorem filterMap_splitCharList_entries (fns : List String) (tailD : List Char)
    (h : ∀ f ∈ fns, '\n' ∉ f.data)
    (htail : (splitCharList '\n' tailD).filterMap parseEntryLine = []) :
    (splitCharList '\n' ((kustomizationEntries fns).data ++ tailD)).filterMap
      parseEntryLine = fns := by
  induction fns with
  | nil =>
      show (splitCharList '\n' ((("" : String)).data ++ tailD)).filterMap
        parseEntryLine = []
      simpa using htail
  | cons f fs ih =>
      have hf : '\n' ∉ f.data := h f (List.mem_cons_self f fs)
      have hfs : ∀ g ∈ fs, '\n' ∉ g.data := fun g hg => h g (List.mem_cons_of_mem f hg)
      have hdata : (kustomizationEntries (f :: fs)).data ++ tailD
          = ("  - ".data ++ f.data) ++ '\n' :: ((kustomizationEntries fs).data ++ tailD) := by
        show ((("  - " ++ f) ++ "\n") ++ kustomizationEntries fs).data ++ tailD = _
        rw [str_data_append, str_data_append, str_data_append]
        simp [List.append_assoc]
      have hnl : '\n' ∉ ("  - ".data ++ f.data) := by
        intro hx
        rcases List.mem_append.mp hx with h1 | h2
        · exact absurd h1 (by decide)
        · exact hf h2
      rw [hdata, splitCharList_append_cons '\n' _ _ hnl,
          List.filterMap_cons_some (parseEntryLine_of_entry f), ih hfs]

theorem listedNames_buildKustomization (fns : List String)
    (h : ∀ f ∈ fns, '\n' ∉ f.data) :
    listedNames (buildKustomization fns) = fns := by
  cases fns with
  | nil => decide
  | cons f fs =>
      unfold listedNames buildKustomization
      have e1 : ((("apiVersion: kustomize.config.k8s.io/v1beta1\nkind: Kustomization\nresources:\n" : String)
            ++ kustomizationEntries (f :: fs))
            ++ (if (f :: fs).isEmpty then ("  []\n" : String) else "")).data
          = "apiVersion: kustomize.config.k8s.io/v1beta1".data
              ++ '\n' :: ("kind: Kustomization".data
              ++ '\n' :: ("resources:".data
              ++ '\n' :: ((kustomizationEntries (f :: fs)).data ++ []))) := by
        rw [str_data_append, str_data_append]
        rw [show ("apiVersion: kustomize.config.k8s.io/v1beta1\nkind: Kustomization\nresources:\n" : String).data
            = "apiVersion: kustomize.config.k8s.io/v1beta1".data
                ++ '\n' :: ("kind: Kustomization".data
                ++ '\n' :: ("resources:".data ++ ['\n'])) from by decide]
        rw [show (if (f :: fs).isEmpty then ("  []\n" : String) else "") = "" from rfl]
        simp [List.append_assoc]
      rw [e1, splitCharList_append_cons '\n' _ _ (by decide),
          splitCharList_append_cons '\n' _ _ (by decide),
          splitCharList_append_cons '\n' _ _ (by decide),
          List.filterMap_cons_none (by decide),
          List.filterMap_cons_none (by decide),
          List.filterMap_cons_none (by decide)]
      exact filterMap_splitCharList_entries (f :: fs) [] h (by decide)

theorem entryFileName_no_newline (k : String) (h : '\n' ∉ k.data) :
    '\n' ∉ (entryFileName k).data := by
  unfold entryFileName replaceSlashDash
  rw [str_data_append]
  intro hx
  rcases List.mem_append.mp hx with h1 | h2
  · rw [show (String.mk (k.data.map fun c => if c = '/' then '-' else c)).data
        = k.data.map fun c => if c = '/' then '-' else c from rfl] at h1
    rw [List.mem_map] at h1
    obtain ⟨c, hc, hg⟩ := h1
    by_cases hcs : c = '/'
    · rw [if_pos hcs] at hg
      exact absurd hg (by decide)
    · rw [if_neg hcs] at hg
      exact h (hg ▸ hc)
  · exact absurd h2 (by decide)

/-! ### Claim theorems -/

/-- Claim C3: after a successful publish via `pushResource`, pulling the
resource at the `latest` reference returns byte-identical manifest content,
and the merged annotations carry exactly the resource name, namespace and
version tag attached at push time. -/
theorem c3_push_pull_roundtrip (reg : Registry) (ns name manifest : String) (now : Nat) :
    pullResource (pushResource reg ns name manifest now).1 ns name "latest"
      = some (manifest,
          (pushResource reg ns name manifest now).2.1.layerAnn
            ++ (pushResource reg ns name manifest now).2.1.manifestAnn)
    ∧ (pushResource reg ns name manifest now).2.2 = versionTag now
    ∧ getKV ((pushResource reg ns name manifest now).2.1.layerAnn
          ++ (pushResource reg ns name manifest now).2.1.manifestAnn)
        annResourceName = some name
    ∧ getKV ((pushResource reg ns name manifest now).2.1.layerAnn
          ++ (pushResource reg ns name manifest now).2.1.manifestAnn)
        annResourceNamespace = some ns
    ∧ getKV ((pushResource reg ns name manifest now).2.1.layerAnn
          ++ (pushResource reg ns name manifest now).2.1.manifestAnn)
        annResourceVersion = some (versionTag now) := by
  refine ⟨?_, rfl, ?_, ?_, ?_⟩
  · simp only [pullResource, pushResource, getKV_setKV_self]
  · show getKV ([(annTitle, "platformresource.yaml"), (annResourceName, name),
        (annResourceNamespace, ns), (annResourceVersion, versionTag now)]
        ++ [(annCreated, rfc3339 now), (annResourceName, name),
            (annResourceNamespace, ns)]) annResourceName = some name
    rw [List.cons_append, getKV_cons_ne _ _ _ _ (by decide), List.cons_append,
        getKV_cons_self]
  · show getKV ([(annTitle, "platformresource.yaml"), (annResourceName, name),
        (annResourceNamespace, ns), (annResourceVersion, versionTag now)]
        ++ [(annCreated, rfc3339 now), (annResourceName, name),
            (annResourceNamespace, ns)]) annResourceNamespace = some ns
    rw [List.cons_append, getKV_cons_ne _ _ _ _ (by decide), List.cons_append,
        getKV_cons_ne _ _ _ _ (by decide), List.cons_append, getKV_cons_self]
  · show getKV ([(annTitle, "platformresource.yaml"), (annResourceName, name),
        (annResourceNamespace, ns), (annResourceVersion, versionTag now)]
        ++ [(annCreated, rfc3339 now), (annResourceName, name),
            (annResourceNamespace, ns)]) annResourceVersion = some (versionTag now)
    rw [List.cons_append, getKV_cons_ne _ _ _ _ (by decide), List.cons_append,
        getKV_cons_ne _ _ _ _ (by decide), List.cons_append,
        getKV_cons_ne _ _ _ _ (by decide), List.cons_append, getKV_cons_self]

/-- Claim C5: running Restore twice in a row with no intervening mutation
of the registry or the index yields the same Catalog Index contents (the
same key-to-bytes mapping) after each run. -/
theorem c5_restore_idempotent (s : SysState) (now1 now2 : Nat) (k : String) :
    getKV (restore (restore s now1) now2).catalog k
      = getKV (restore s now1).catalog k := by
  rw [restore_getKV, restoreResult_restore_reg]
  cases hr : restoreResult s.reg k with
  | none => rfl
  | some m => rw [restore_getKV, hr]

/-- Claim C6: Restore unconditionally rebuilds and republishes the catalog
at the end of the procedure — for every starting state, including one
where nothing was restored, the catalog repository's `latest` tag ends up
holding the catalog artifact assembled from the restored index. -/
theorem c6_restore_republishes_catalog (s : SysState) (now : Nat) :
    catalogLatest (restore s now).reg
      = some (catalogArtifact (restore s now).catalog now) := by
  rw [restore_reg]
  simp only [catalogLatest, pushCatalogOCI, catalogArtifact, getKV_setKV_self]

/-- Claim C9: Restore is purely additive on the Catalog Index — a key for
which the registry restores nothing keeps its previous binding unchanged,
and a key present before Restore is still present afterwards (with either
its old bytes or the bytes restored from the registry). -/
theorem c9_restore_additive (s : SysState) (now : Nat) (k : String) :
    (restoreResult s.reg k = none →
      getKV (restore s now).catalog k = getKV s.catalog k)
    ∧ (∀ v, getKV s.catalog k = some v →
        getKV (restore s now).catalog k = some v
          ∨ ∃ m, restoreResult s.reg k = some m
              ∧ getKV (restore s now).catalog k = some m) := by
  constructor
  · intro h
    rw [restore_getKV, h]
  · intro v hv
    cases hr : restoreResult s.reg k with
    | none =>
        left
        rw [restore_getKV, hr]
        exact hv
    | some m =>
        right
        exact ⟨m, rfl, by rw [restore_getKV, hr]⟩

set_option maxRecDepth 10000 in
/-- Witness for C9: a pre-existing entry under a key the (empty) registry
cannot restore survives Restore with unchanged bytes. -/
theorem c9_restore_additive_witness :
    getKV (restore ⟨[], [("x", "v")]⟩ 0).catalog "x"
        = getKV (SysState.mk [] [("x", "v")]).catalog "x"
    ∧ getKV (SysState.mk [] [("x", "v")]).catalog "x" = some "v" :=
  ⟨(c9_restore_additive ⟨[], [("x", "v")]⟩ 0 "x").1 (by decide), by decide⟩

/-- Claim C10: retracting a resource whose key is absent from the Catalog
Index reports NotFound and has no side effects — the whole system state
(registry and index) is returned unchanged, and no tombstone is pushed. -/
theorem c10_delete_missing_noop (s : SysState) (name : String) (now : Nat)
    (hname : name ≠ "")
    (h : catalogGet s.catalog defaultNamespace name = none) :
    deleteResource s name now = (s, DeleteOutcome.notFound) := by
  unfold deleteResource
  rw [if_neg hname, h]

set_option maxRecDepth 10000 in
/-- Witness for C10: deleting a name the index does not hold leaves the
state untouched and reports NotFound. -/
theorem c10_delete_missing_noop_witness :
    deleteResource ⟨[], []⟩ "x" 3 = (⟨[], []⟩, DeleteOutcome.notFound) :=
  c10_delete_missing_noop ⟨[], []⟩ "x" 3 (by decide) (by decide)

/-- Claim C4: after a successful retract of an index-resident resource,
`Get` reports the resource absent, and a subsequent Restore does not
repopulate it, because the repository's `latest` version now carries the
`deleted=true` annotation. -/
theorem c4_tombstone_exclusion (s : SysState) (name : String) (now now2 : Nat)
    (m : String) (hname : name ≠ "")
    (hidx : catalogGet s.catalog defaultNamespace name = some m) :
    catalogGet (deleteResource s name now).1.catalog defaultNamespace name = none
    ∧ catalogGet (restore (deleteResource s name now).1 now2).catalog
        defaultNamespace name = none := by
  have hs1 : deleteResource s name now
      = (⟨pushCatalogOCI (pushTombstone s.reg defaultNamespace name now).1
            (encodeArchive (buildCatalogTarGz
              (catalogDelete s.catalog defaultNamespace name))) now,
          catalogDelete s.catalog defaultNamespace name⟩,
         DeleteOutcome.deleted (pushTombstone s.reg defaultNamespace name now).2.2
           (pushTombstone s.reg defaultNamespace name now).2.1) := by
    unfold deleteResource
    rw [if_neg hname, hidx]
  constructor
  · rw [hs1]
    exact getKV_eraseKV_self _ _
  · rw [hs1]
    show getKV (restore _ now2).catalog (defaultNamespace ++ "/" ++ name) = none
    rw [restore_getKV]
    have hrr : restoreResult
        (pushCatalogOCI (pushTombstone s.reg defaultNamespace name now).1
          (encodeArchive (buildCatalogTarGz
            (catalogDelete s.catalog defaultNamespace name))) now)
        (defaultNamespace ++ "/" ++ name) = none := by
      rw [restoreResult_pushCatalogOCI]
      exact restoreResult_after_tombstone s.reg defaultNamespace name now (by decide)
    rw [hrr]
    exact getKV_eraseKV_self _ _

set_option maxRecDepth 100000 in
/-- Witness for C4: retract an index-resident resource, observe the index
report it absent, and observe a subsequent Restore leave it absent. -/
theorem c4_tombstone_exclusion_witness :
    catalogGet (deleteResource ⟨[], [("default/x", "m")]⟩ "x" 1).1.catalog
        defaultNamespace "x" = none
    ∧ catalogGet (restore (deleteResource ⟨[], [("default/x", "m")]⟩ "x" 1).1 2).catalog
        defaultNamespace "x" = none :=
  c4_tombstone_exclusion ⟨[], [("default/x", "m")]⟩ "x" 1 2 "m" (by decide) (by decide)

/-- Claim C7: during Restore, a repository path whose suffix after the
resource path root does not split into two segments is skipped (it never
appears in the listing), and a per-resource pull failure leaves that
resource's index key untouched while every resource the registry does
restore is still restored. -/
theorem c7_restore_skips (s : SysState) (now : Nat) (p : String)
    (hmal : '/' ∉ (strDropLen (resourcePfx ++ "/").length p).data)
    (i : ResourceInfo) (hi : i ∈ listResourceRepos s.reg)
    (hfail : pullResource s.reg i.Namespace i.Name "latest" = none)
    (k m : String) (hk : restoreResult s.reg k = some m) :
    (∀ j ∈ listResourceRepos s.reg, j.Repository ≠ p)
    ∧ getKV (restore s now).catalog (repoKey i) = getKV s.catalog (repoKey i)
    ∧ getKV (restore s now).catalog k = some m := by
  have hp : parseRepoName p = none := by
    unfold parseRepoName
    by_cases hpx : strHasPfx (resourcePfx ++ "/") p
    · rw [if_pos hpx]
      unfold splitN2
      rw [splitFirstSlash_eq_none hmal]
    · rw [if_neg hpx]
  refine ⟨?_, ?_, ?_⟩
  · intro j hj heq
    have hjp := (mem_listResourceRepos hj).2
    rw [heq, hp] at hjp
    exact Option.noConfusion hjp
  · have hrr : restoreResult s.reg (repoKey i) = none := by
      unfold restoreResult
      cases hf : (listResourceRepos s.reg).find? (fun j => repoKey j == repoKey i) with
      | none => rfl
      | some j =>
          have hjm := List.mem_of_find?_eq_some hf
          have hjk : repoKey j = repoKey i := by simpa using List.find?_some hf
          show stepVal s.reg j = none
          rw [stepVal_eq_of_repoKey_eq hjm hi hjk]
          unfold stepVal
          rw [hfail]
    rw [restore_getKV, hrr]
  · rw [restore_getKV, hk]

/-- A generated version tag is never the `latest` alias. -/
theorem versionTag_ne_latest (now : Nat) : versionTag now ≠ "latest" := by
  intro h
  have hd := congrArg String.data h
  unfold versionTag at hd
  rw [str_data_append] at hd
  have hd2 : 'v' :: (toString now).data = ['l', 'a', 't', 'e', 's', 't'] := hd
  injection hd2 with h1 _
  exact absurd h1 (by decide)

set_option maxRecDepth 100000 in
/-- Witness for C7: on a registry holding one malformed path, one broken
repository and one healthy one, the malformed path is absent from the
listing, the broken repository's key is untouched, and the healthy
resource is restored. -/
theorem c7_restore_skips_witness :
    (∀ j ∈ listResourceRepos (SysState.mk regC7 []).reg,
        j.Repository ≠ "gitops-squared/resources/weird")
    ∧ getKV (restore ⟨regC7, []⟩ 5).catalog
          (repoKey ⟨"gitops-squared/resources/default/broken", "default", "broken"⟩)
        = getKV (SysState.mk regC7 []).catalog
          (repoKey ⟨"gitops-squared/resources/default/broken", "default", "broken"⟩)
    ∧ getKV (restore ⟨regC7, []⟩ 5).catalog "default/good" = some "m" :=
  c7_restore_skips ⟨regC7, []⟩ 5 "gitops-squared/resources/weird" (by decide)
    ⟨"gitops-squared/resources/default/broken", "default", "broken"⟩ (by decide)
    (by decide) "default/good" "m" (by decide)

/-- Claim C8 (amended): provided the generated tag `v<now>` is not already
a tag of the repository (no two pushes within the same clock second), each
publish and each retract creates that tag pointing at the newly pushed
artifact, reassigns `latest` to the same artifact, leaves every other tag
of the repository unchanged, and leaves every other repository unchanged. -/
theorem c8_push_tags (reg : Registry) (ns name manifest : String) (now : Nat)
    (_hfresh : getKV ((getKV reg (resourceRepoPath ns name)).getD [])
        (versionTag now) = none) :
    ((pushResource reg ns name manifest now).2.2 = versionTag now
     ∧ getKV ((getKV (pushResource reg ns name manifest now).1
            (resourceRepoPath ns name)).getD []) (versionTag now)
         = some (pushResource reg ns name manifest now).2.1
     ∧ getKV ((getKV (pushResource reg ns name manifest now).1
            (resourceRepoPath ns name)).getD []) "latest"
         = some (pushResource reg ns name manifest now).2.1
     ∧ (∀ t, t ≠ versionTag now → t ≠ "latest" →
          getKV ((getKV (pushResource reg ns name manifest now).1
              (resourceRepoPath ns name)).getD []) t
            = getKV ((getKV reg (resourceRepoPath ns name)).getD []) t)
     ∧ (∀ q, q ≠ resourceRepoPath ns name →
          getKV (pushResource reg ns name manifest now).1 q = getKV reg q))
    ∧ ((pushTombstone reg ns name now).2.2 = versionTag now
     ∧ getKV ((getKV (pushTombstone reg ns name now).1
            (resourceRepoPath ns name)).getD []) (versionTag now)
         = some (pushTombstone reg ns name now).2.1
     ∧ getKV ((getKV (pushTombstone reg ns name now).1
            (resourceRepoPath ns name)).getD []) "latest"
         = some (pushTombstone reg ns name now).2.1
     ∧ (∀ t, t ≠ versionTag now → t ≠ "latest" →
          getKV ((getKV (pushTombstone reg ns name now).1
              (resourceRepoPath ns name)).getD []) t
            = getKV ((getKV reg (resourceRepoPath ns name)).getD []) t)
     ∧ (∀ q, q ≠ resourceRepoPath ns name →
          getKV (pushTombstone reg ns name now).1 q = getKV reg q)) := by
  constructor
  · refine ⟨rfl, ?_, ?_, ?_, ?_⟩
    · simp only [pushResource, getKV_setKV_self, Option.getD_some]
      rw [getKV_setKV_ne _ _ _ _ (Ne.symm (versionTag_ne_latest now))]
      exact getKV_setKV_self _ _ _
    · simp only [pushResource, getKV_setKV_self, Option.getD_some]
    · intro t ht1 ht2
      simp only [pushResource, getKV_setKV_self, Option.getD_some]
      rw [getKV_setKV_ne _ _ _ _ (Ne.symm ht2), getKV_setKV_ne _ _ _ _ (Ne.symm ht1)]
    · intro q hq
      simp only [pushResource]
      exact getKV_setKV_ne _ _ _ _ (Ne.symm hq)
  · refine ⟨rfl, ?_, ?_, ?_, ?_⟩
    · simp only [pushTombstone, getKV_setKV_self, Option.getD_some]
      rw [getKV_setKV_ne _ _ _ _ (Ne.symm (versionTag_ne_latest now))]
      exact getKV_setKV_self _ _ _
    · simp only [pushTombstone, getKV_setKV_self, Option.getD_some]
    · intro t ht1 ht2
      simp only [pushTombstone, getKV_setKV_self, Option.getD_some]
      rw [getKV_setKV_ne _ _ _ _ (Ne.symm ht2), getKV_setKV_ne _ _ _ _ (Ne.symm ht1)]
    · intro q hq
      simp only [pushTombstone]
      exact getKV_setKV_ne _ _ _ _ (Ne.symm hq)

set_option maxRecDepth 100000 in
/-- Witness for C8: pushing into an empty registry, where the generated
tag is certainly fresh, creates the version tag and moves `latest`. -/
theorem c8_push_tags_witness :
    getKV ((getKV ([] : Registry) (resourceRepoPath "default" "a")).getD [])
        (versionTag 7) = none
    ∧ getKV ((getKV (pushResource [] "default" "a" "m" 7).1
          (resourceRepoPath "default" "a")).getD []) (versionTag 7)
        = some (pushResource [] "default" "a" "m" 7).2.1
    ∧ getKV ((getKV (pushResource [] "default" "a" "m" 7).1
          (resourceRepoPath "default" "a")).getD []) "latest"
        = some (pushResource [] "default" "a" "m" 7).2.1 :=
  ⟨by decide, (c8_push_tags [] "default" "a" "m" 7 (by decide)).1.2.1,
    (c8_push_tags [] "default" "a" "m" 7 (by decide)).1.2.2.1⟩

set_option maxRecDepth 100000 in
/-- Counterexample for C8 as stated: two publishes of the same resource in
the same clock second generate the same tag `v7`, and the second push
overwrites it — an existing tag other than `latest` is overwritten. -/
theorem c8_counterexample :
    (getKV ((getKV (pushResource [] "default" "a" "m1" 7).1
        (resourceRepoPath "default" "a")).getD []) "v7").isSome = true
    ∧ getKV ((getKV (pushResource (pushResource [] "default" "a" "m1" 7).1
          "default" "a" "m2" 7).1 (resourceRepoPath "default" "a")).getD []) "v7"
        ≠ getKV ((getKV (pushResource [] "default" "a" "m1" 7).1
          (resourceRepoPath "default" "a")).getD []) "v7" := by
  exact ⟨by decide, by decide⟩

/-- Claim C2 (amended): for every mapping (iterated in its Go map order),
the archive contains exactly one file per entry — named by replacing the
key's slash with a hyphen and appending `.yaml` — plus exactly one
`kustomization.yaml` whose listed file names are exactly the entry file
names in the iteration order (not a sorted order), with the explicit
`[]` empty-list marker when there are zero entries.  The newline-free
hypothesis on keys makes the generated manifest list parse back
unambiguously. -/
theorem c2_assemble_archive (resources : List (String × String))
    (h : ∀ kv ∈ resources, '\n' ∉ kv.1.data) :
    buildCatalogTarGz resources
      = (resources.map fun kv => ("manifests/" ++ entryFileName kv.1, kv.2))
        ++ [("manifests/kustomization.yaml",
             buildKustomization (resources.map fun kv => entryFileName kv.1))]
    ∧ listedNames (buildKustomization (resources.map fun kv => entryFileName kv.1))
        = (resources.map fun kv => entryFileName kv.1)
    ∧ (resources = [] →
        buildKustomization (resources.map fun kv => entryFileName kv.1)
          = "apiVersion: kustomize.config.k8s.io/v1beta1\nkind: Kustomization\nresources:\n  []\n") := by
  refine ⟨rfl, ?_, ?_⟩
  · apply listedNames_buildKustomization
    intro f hf
    rw [List.mem_map] at hf
    obtain ⟨kv, hkv, rfl⟩ := hf
    exact entryFileName_no_newline kv.1 (h kv hkv)
  · intro hres
    subst hres
    decide

set_option maxRecDepth 10000 in
/-- Witness for C2: a one-entry mapping whose kustomization lists exactly
the one generated file name. -/
theorem c2_assemble_archive_witness :
    listedNames (buildKustomization ([("a/y", "m")].map fun kv => entryFileName kv.1))
      = ([("a/y", "m")].map fun kv => entryFileName kv.1) :=
  (c2_assemble_archive [("a/y", "m")] (by decide)).2.1

set_option maxRecDepth 10000 in
/-- Counterexample for C2 as stated: with the entries iterated in the
order `b/x`, `a/y`, the generated manifest list names them in that same
order, and that order is not sorted — its first name `b-x.yaml` does not
lexicographically precede its second name `a-y.yaml` — so the
"deterministically sorted order" part of the claim fails on the code,
which never sorts the file names. -/
theorem c2_counterexample :
    getKV (buildCatalogTarGz [("b/x", "m1"), ("a/y", "m2")])
        "manifests/kustomization.yaml"
      = some (buildKustomization ["b-x.yaml", "a-y.yaml"])
    ∧ listedNames (buildKustomization ["b-x.yaml", "a-y.yaml"])
        = ["b-x.yaml", "a-y.yaml"]
    ∧ lexLe "b-x.yaml".data "a-y.yaml".data = false :=
  ⟨by decide, by decide, by decide⟩

set_option maxRecDepth 100000 in
/-- Claim C1 (code-bug exhibit): publishing resource `db` stores the CRD
YAML regenerated with the real version `v1` in the Catalog Index, but the
registry artifact keeps the YAML generated with the placeholder version
`"pending"`; running Restore on an empty index therefore yields bytes that
differ from the bytes the index held after the original publish, breaking
the derivability invariant. -/
theorem c1_restore_diverges_from_index :
    getKV (createResource ⟨[], []⟩ reqDb 1).1.catalog "default/db"
      = some (toKubernetesYAML reqDb "default" "v1" (rfc3339 1))
    ∧ getKV (restore ⟨(createResource ⟨[], []⟩ reqDb 1).1.reg, []⟩ 2).catalog
        "default/db"
      = some (toKubernetesYAML reqDb "default" "pending" (rfc3339 1))
    ∧ toKubernetesYAML reqDb "default" "pending" (rfc3339 1)
      ≠ toKubernetesYAML reqDb "default" "v1" (rfc3339 1) :=
  ⟨by decide, by decide, by decide⟩
